/-
Verification development for the VP8L lossless decoder core of this
repository (src/dec/vp8l.c).

Shallow embedding.  The bit reader, the prefix-code tree walk, the prefix
tree builder and the colour cache are implemented outside src/ (bit_reader,
huffman.c, color_cache.c); they are modelled from the specification's
contracts.  Everything else — symbol dispatch, the LZ77 pixel loop, the
code-length mini-protocol, transform reading, the plane-code table — is
transcribed from vp8l.c and the line numbers cited in the comments refer to
that file.  Machine integers are modelled as Nat/Int; 32-bit wraparound is
made explicit where the C code relies on it.
-/
import Mathlib

set_option linter.unusedVariables false
set_option maxRecDepth 8000

/-- Decoder status codes (the VP8_STATUS_* constants used by vp8l.c). -/
inductive Status where
  | ok
  | outOfMemory
  | invalidParam
  | bitstreamError
  | suspended
  deriving DecidableEq

/-- Modelled from the spec (§4.1 BitReader): a byte buffer consumed as an
LSB-first bit stream with a current bit position; `error` is the sticky flag
set when a read extends past end-of-input (subsequent reads return zero);
`eos` is true when the consumed position has reached the end of input.  The
concrete bit reader lives outside src/. -/
structure BitReader where
  data : List Nat
  pos : Nat
  error : Bool
  deriving DecidableEq

def brBitLen (br : BitReader) : Nat := 8 * br.data.length

def brEos (br : BitReader) : Bool := brBitLen br ≤ br.pos

/-- Bit `i` of the byte stream, LSB-first within each byte. -/
def getBit (data : List Nat) (i : Nat) : Nat :=
  (data.getD (i / 8) 0 >>> (i % 8)) &&& 1

/-- Value of `n` bits starting at position `p`, LSB-first. -/
def bitsVal (data : List Nat) : Nat → Nat → Nat
  | _, 0 => 0
  | p, n + 1 => getBit data p + 2 * bitsVal data (p + 1) n

/-- Modelled from the spec: `read(n)` of §4.1 (VP8LReadBits).  A read that
extends past the end of input sets the sticky error flag, consumes the rest
of the input and returns zero, as do all reads after an error. -/
def readBits (br : BitReader) (n : Nat) : Nat × BitReader :=
  if br.error then (0, br)
  else if br.pos + n ≤ brBitLen br then
    (bitsVal br.data br.pos n, { br with pos := br.pos + n })
  else (0, { br with pos := brBitLen br, error := true })

/-- Modelled from the spec: the unsafe fast variant of `read_one`
(VP8LReadOneBitUnsafe), no bounds check. -/
def readOneBitUnsafe (br : BitReader) : Nat × BitReader :=
  (getBit br.data br.pos, { br with pos := br.pos + 1 })

/-- Modelled from the spec: `fill()` only pre-buffers bits (≥ 24) from the
backing bytes; in a model that reads straight from the byte list it is the
identity.  Kept so call sites line up with the VP8LFillBitWindow calls. -/
def fillBitWindow (br : BitReader) : BitReader := br

/-- Modelled from the spec (§4.2 PrefixDecoder): a prefix-code tree, queried
by walking bit-by-bit until a leaf is reached (huffman.c is outside src/). -/
inductive HTree where
  | leaf (sym : Nat)
  | node (l r : HTree)
  deriving DecidableEq

def treeDepth : HTree → Nat
  | .leaf _ => 0
  | .node l r => 1 + max (treeDepth l) (treeDepth r)

/-- All leaf symbols of the tree are < `n`. -/
def leavesLT : HTree → Nat → Bool
  | .leaf s, n => decide (s < n)
  | .node l r, n => leavesLT l n && leavesLT r n

/-- The safe tree walk: the else-branch of ReadSymbol (vp8l.c:163-168), one
checked single-bit read (VP8LReadOneBit) per inner node. -/
def treeWalkSafe : HTree → BitReader → Nat × BitReader
  | .leaf s, br => (s, br)
  | .node l r, br =>
    let p := readBits br 1
    match p.1 with
    | 0 => treeWalkSafe l p.2
    | _ => treeWalkSafe r p.2

/-- ReadSymbolUnsafe (vp8l.c:148-155): the same walk with unchecked bit
reads. -/
def readSymbolUnsafe : HTree → BitReader → Nat × BitReader
  | .leaf s, br => (s, br)
  | .node l r, br =>
    let p := readOneBitUnsafe br
    match p.1 with
    | 0 => readSymbolUnsafe l p.2
    | _ => readSymbolUnsafe r p.2

/-- ReadSymbol (vp8l.c:157-170): dispatches to the unsafe walk unless fewer
than 8 unread bytes (64 bits) remain, in which case the safe walk is used. -/
def readSymbol (tree : HTree) (br : BitReader) : Nat × BitReader :=
  if br.pos + 64 ≤ brBitLen br then readSymbolUnsafe tree br
  else treeWalkSafe tree br

/-- GetCopyDistance (vp8l.c:116-125); GetCopyLength (vp8l.c:127-131) is the
same function. -/
def getCopyDistance (distanceSymbol : Nat) (br : BitReader) : Nat × BitReader :=
  if distanceSymbol < 4 then (distanceSymbol + 1, br)
  else
    let extraBits := (distanceSymbol - 2) >>> 1
    let offset := (2 + (distanceSymbol &&& 1)) <<< extraBits
    let p := readBits br extraBits
    (offset + p.1 + 1, p.2)

/-- code_to_plane_lut (vp8l.c:63-76), the 120-entry (dy, dx) table. -/
def codeToPlaneLut : List Nat :=
  [0x18, 0x07, 0x17, 0x19, 0x28, 0x06, 0x27, 0x29, 0x16, 0x1a,
   0x26, 0x2a, 0x38, 0x05, 0x37, 0x39, 0x15, 0x1b, 0x36, 0x3a,
   0x25, 0x2b, 0x48, 0x04, 0x47, 0x49, 0x14, 0x1c, 0x35, 0x3b,
   0x46, 0x4a, 0x24, 0x2c, 0x58, 0x45, 0x4b, 0x34, 0x3c, 0x03,
   0x57, 0x59, 0x13, 0x1d, 0x56, 0x5a, 0x23, 0x2d, 0x44, 0x4c,
   0x55, 0x5b, 0x33, 0x3d, 0x68, 0x02, 0x67, 0x69, 0x12, 0x1e,
   0x66, 0x6a, 0x22, 0x2e, 0x54, 0x5c, 0x43, 0x4d, 0x65, 0x6b,
   0x32, 0x3e, 0x78, 0x01, 0x77, 0x79, 0x53, 0x5d, 0x11, 0x1f,
   0x64, 0x6c, 0x42, 0x4e, 0x76, 0x7a, 0x21, 0x2f, 0x75, 0x7b,
   0x31, 0x3f, 0x63, 0x6d, 0x52, 0x5e, 0x00, 0x74, 0x7c, 0x41,
   0x4f, 0x10, 0x20, 0x62, 0x6e, 0x30, 0x73, 0x7d, 0x51, 0x5f,
   0x40, 0x72, 0x7e, 0x61, 0x6f, 0x50, 0x71, 0x7f, 0x60, 0x70]

/-- PlaneCodeToDistance (vp8l.c:133-142).  The C arithmetic is on signed
ints: `8 - (dist_code & 0xf)` may be negative, so the result is an Int. -/
def planeCodeToDistance (xsize planeCode : Nat) : Int :=
  if 120 < planeCode then (planeCode : Int) - 120
  else
    let distCode := codeToPlaneLut.getD (planeCode - 1) 0
    let yoffset := distCode >>> 4
    ((yoffset : Int) * xsize) + ((8 : Int) - (distCode &&& 15 : Nat))

/-- Modelled from the spec (§4.4 ColorCache): table of size `2^bits`, hash
`(v * 0x1E35A7BD) >> (32 - bits)` on the 32-bit pixel value, unconditional
overwrite on insert (color_cache is outside src/). -/
structure ColorCache where
  bits : Nat
  table : List Nat
  deriving DecidableEq

def cacheHash (v bits : Nat) : Nat := ((v * 0x1E35A7BD) % 4294967296) >>> (32 - bits)

def cacheInsert (cc : ColorCache) (v : Nat) : ColorCache :=
  { cc with table := cc.table.set (cacheHash v cc.bits) v }

def cacheLookup (cc : ColorCache) (key : Nat) : Nat := cc.table.getD key 0

/-- kCodeLengthExtraBits (vp8l.c:28). -/
def kCodeLengthExtraBits : List Nat := [2, 3, 7]

/-- kCodeLengthRepeatOffsets (vp8l.c:29). -/
def kCodeLengthRepeatOffsets : List Nat := [3, 3, 11]

/-- Writes `n` copies of `v` into `l` starting at index `i` (the
`while (repeat-- > 0) code_lengths[symbol++] = length` loop). -/
def setRun (l : List Nat) : Nat → Nat → Nat → List Nat
  | _, 0, _ => l
  | i, n + 1, v => setRun (l.set i v) (i + 1) n v

/-- The symbol-decoding loop of ReadHuffmanCodeLengths (vp8l.c:198-221),
transcribed from the source.  `maxSym` is the countdown decremented once per
iteration (`if (max_symbol-- == 0) break`).  The loop runs at most
`maxSym + 1 ≤ numSymbols + 1` iterations — each continuing iteration
decrements `maxSym` — so it is given `numSymbols + 1` fuel by its callers
and the fuel-exhausted branch is unreachable. -/
def clLoopSrc (tree : HTree) (numSymbols : Nat) :
    Nat → BitReader → Nat → Nat → Nat → List Nat →
    Option (List Nat) × Status × BitReader
  | 0, br, _, _, _, lens => (some lens, Status.ok, br)
  | fuel + 1, br, symbol, maxSym, prev, lens =>
    if numSymbols ≤ symbol then (some lens, Status.ok, br)
    else if maxSym = 0 then (some lens, Status.ok, br)
    else
      let br0 := fillBitWindow br
      let p := readSymbol tree br0
      let codeLen := p.1
      if codeLen < 16 then
        clLoopSrc tree numSymbols fuel p.2 (symbol + 1) (maxSym - 1)
          (if codeLen ≠ 0 then codeLen else prev) (lens.set symbol codeLen)
      else
        let slot := codeLen - 16
        let extraBits := kCodeLengthExtraBits.getD slot 0
        let repeatOffset := kCodeLengthRepeatOffsets.getD slot 0
        let q := readBits p.2 extraBits
        let rep := q.1 + repeatOffset
        if numSymbols < symbol + rep then (none, Status.bitstreamError, q.2)
        else
          clLoopSrc tree numSymbols fuel q.2 (symbol + rep) (maxSym - 1) prev
            (setRun lens symbol rep (if codeLen = 16 then prev else 0))

/-- ReadHuffmanCodeLengths (vp8l.c:172-227) given the already-built
code-length tree: the optional length header (vp8l.c:187-196, initial
previous non-zero length DEFAULT_CODE_LENGTH = 8) followed by the symbol
loop.  The code-length array starts as `alphabet_size` zeros (calloc at
vp8l.c:271). -/
def readHuffmanCodeLengthsT (tree : HTree) (numSymbols : Nat) (br : BitReader) :
    Option (List Nat) × Status × BitReader :=
  let p := readBits br 1
  if p.1 = 1 then
    let pn := readBits p.2 3
    let lengthNbits := 2 + 2 * pn.1
    let pv := readBits pn.2 lengthNbits
    let maxSymbol := 2 + pv.1
    if numSymbols < maxSymbol then (none, Status.bitstreamError, pv.2)
    else clLoopSrc tree numSymbols (numSymbols + 1) pv.2 0 maxSymbol 8
      (List.replicate numSymbols 0)
  else
    clLoopSrc tree numSymbols (numSymbols + 1) p.2 0 numSymbols 8
      (List.replicate numSymbols 0)

/-- Spec-side rendering of the code-length mini-protocol, written from the
table in §4.3: symbols 0..15 are literal lengths; 16 repeats the previous
non-zero length `3 + read(2)` times; 17 repeats length 0 `3 + read(3)`
times; 18 repeats length 0 `11 + read(7)` times; any other symbol is
out-of-range (BitstreamError per §7); `symbol + repeat ≤ alphabet_size` must
hold. -/
def clLoopSpec (tree : HTree) (numSymbols : Nat) :
    Nat → BitReader → Nat → Nat → Nat → List Nat →
    Option (List Nat) × Status × BitReader
  | 0, br, _, _, _, lens => (some lens, Status.ok, br)
  | fuel + 1, br, symbol, maxSym, prev, lens =>
    if numSymbols ≤ symbol then (some lens, Status.ok, br)
    else if maxSym = 0 then (some lens, Status.ok, br)
    else
      let p := readSymbol tree (fillBitWindow br)
      if p.1 < 16 then
        clLoopSpec tree numSymbols fuel p.2 (symbol + 1) (maxSym - 1)
          (if p.1 ≠ 0 then p.1 else prev) (lens.set symbol p.1)
      else if p.1 = 16 then
        let q := readBits p.2 2
        let rep := 3 + q.1
        if numSymbols < symbol + rep then (none, Status.bitstreamError, q.2)
        else clLoopSpec tree numSymbols fuel q.2 (symbol + rep) (maxSym - 1) prev
          (setRun lens symbol rep prev)
      else if p.1 = 17 then
        let q := readBits p.2 3
        let rep := 3 + q.1
        if numSymbols < symbol + rep then (none, Status.bitstreamError, q.2)
        else clLoopSpec tree numSymbols fuel q.2 (symbol + rep) (maxSym - 1) prev
          (setRun lens symbol rep 0)
      else if p.1 = 18 then
        let q := readBits p.2 7
        let rep := 11 + q.1
        if numSymbols < symbol + rep then (none, Status.bitstreamError, q.2)
        else clLoopSpec tree numSymbols fuel q.2 (symbol + rep) (maxSym - 1) prev
          (setRun lens symbol rep 0)
      else (none, Status.bitstreamError, p.2)

/-- Spec-side rendering of ReadHuffmanCodeLengths: the same optional header
(§4.3: `length_nbits = 2 + 2*nb`, `max_symbol = 2 + read(length_nbits)`,
initial previous non-zero length 8) followed by the spec-side loop. -/
def readCodeLengthsSpecT (tree : HTree) (numSymbols : Nat) (br : BitReader) :
    Option (List Nat) × Status × BitReader :=
  let p := readBits br 1
  if p.1 = 1 then
    let pn := readBits p.2 3
    let pv := readBits pn.2 (2 + 2 * pn.1)
    if numSymbols < 2 + pv.1 then (none, Status.bitstreamError, pv.2)
    else clLoopSpec tree numSymbols (numSymbols + 1) pv.2 0 (2 + pv.1) 8
      (List.replicate numSymbols 0)
  else
    clLoopSpec tree numSymbols (numSymbols + 1) p.2 0 numSymbols 8
      (List.replicate numSymbols 0)

/-- Partial prefix tree used while inserting canonical codes. -/
inductive PT where
  | empty
  | lf (sym : Nat)
  | nd (l r : PT)
  deriving DecidableEq

/-- The `len` code bits of `code`, most significant first. -/
def codeBits (code len : Nat) : List Bool :=
  (List.range len).reverse.map (fun k => ((code >>> k) &&& 1) = 1)

/-- Inserts a symbol at the position given by its code bits; fails (over-
subscribed code) if the path crosses a leaf or ends on a non-empty node. -/
def insertPT : PT → List Bool → Nat → Option PT
  | .empty, [], s => some (.lf s)
  | .empty, b :: bs, s =>
    match insertPT .empty bs s with
    | none => none
    | some t => some (if b then .nd .empty t else .nd t .empty)
  | .lf _, _, _ => none
  | .nd _ _, [], _ => none
  | .nd l r, b :: bs, s =>
    if b then
      match insertPT r bs s with
      | none => none
      | some t => some (.nd l t)
    else
      match insertPT l bs s with
      | none => none
      | some t => some (.nd t r)

/-- A complete partial tree becomes an HTree; an `empty` slot means the code
was under-subscribed and the build fails. -/
def ptComplete : PT → Option HTree
  | .empty => none
  | .lf s => some (.leaf s)
  | .nd l r =>
    match ptComplete l, ptComplete r with
    | some a, some b => some (.node a b)
    | _, _ => none

/-- Number of symbols of code length `len` among the (symbol, length)
pairs. -/
def blCount (pairs : List (Nat × Nat)) (len : Nat) : Nat :=
  (pairs.filter (fun q => q.2 == len)).length

/-- First canonical code of each length: `first(L+1) = (first(L) +
count(L)) << 1`. -/
def firstCode (pairs : List (Nat × Nat)) : Nat → Nat
  | 0 => 0
  | l + 1 => (firstCode pairs l + blCount pairs l) <<< 1

/-- Canonical code of the symbol at index `i` with length `len`: the first
code of that length plus the number of earlier symbols of the same length. -/
def symCode (pairs : List (Nat × Nat)) (i len : Nat) : Nat :=
  firstCode pairs len + (pairs.filter (fun q => q.2 == len && q.1 < i)).length

/-- Modelled from the spec: `build_from_lengths` of §4.2 (the external
HuffmanTreeBuildImplicit of huffman.c, not under src/).  Canonical prefix
code over `alphabet size = |lengths|`; fails on over- or under-subscribed
codes; a single used symbol yields the trivial tree emitting it without
consuming bits. -/
def huffmanTreeBuildImplicit (lens : List Nat) : Option HTree :=
  let nz := lens.enum.filter (fun q => q.2 ≠ 0)
  match nz with
  | [] => none
  | [q] => some (.leaf q.1)
  | _ =>
    match nz.foldl
        (fun acc q =>
          match acc with
          | none => none
          | some t => insertPT t (codeBits (symCode nz q.1 q.2) q.2) q.1)
        (some PT.empty) with
    | none => none
    | some t => ptComplete t

/-- ReadHuffmanCodeLengths (vp8l.c:172-227) from the code-length code
lengths: the tree build (vp8l.c:182-185, BitstreamError on failure) followed
by the header and symbol loop. -/
def readHuffmanCodeLengths (clcl : List Nat) (numSymbols : Nat) (br : BitReader) :
    Option (List Nat) × Status × BitReader :=
  match huffmanTreeBuildImplicit clcl with
  | none => (none, Status.bitstreamError, br)
  | some tree => readHuffmanCodeLengthsT tree numSymbols br

/-- Modelled from the spec: VP8LSubSampleSize (dsp/lossless.h, outside src/):
`⌈size / 2^bits⌉`. -/
def subSampleSize (size samplingBits : Nat) : Nat :=
  (size + (1 <<< samplingBits) - 1) >>> samplingBits

/-- GetMetaIndex (vp8l.c:491-495). -/
def getMetaIndex (image : List Nat) (xsize bits x y : Nat) : Nat :=
  if bits = 0 then 0
  else image.getD (xsize * (y >>> bits) + (x >>> bits)) 0

/-- The huffman-image rewrite of ReadHuffmanCodes (vp8l.c:319-322): each
decoded meta pixel is replaced by `(pixel >> 8) & 0xffff` (group index held
in the red+green bytes). -/
def fixHuffmanImage (img : List Nat) : List Nat :=
  img.map (fun p => (p >>> 8) &&& 0xffff)

/-- UpdateDecoder's mask (vp8l.c:829): `(num_bits == 0) ? ~0 : (1 <<
num_bits) - 1`.  `~0` on a 32-bit int is all-ones; columns stay below 2^32,
so `2^32 - 1` is an exact model. -/
def huffmanMaskOf (numBits : Nat) : Nat :=
  if numBits = 0 then 4294967295 else (1 <<< numBits) - 1

/-- The colour-cache negotiation of ReadHuffmanCodes (vp8l.c:328-334): if
the use-colour-cache bit is set, the next 4 bits are stored as
`color_cache_bits` and `color_cache_size = 1 << color_cache_bits`, with no
range check.  Returns (color_cache_bits, color_cache_size, reader). -/
def readColorCacheInfo (br : BitReader) : Nat × Nat × BitReader :=
  let p := readBits br 1
  if p.1 = 1 then
    let q := readBits p.2 4
    (q.1, 1 <<< q.1, q.2)
  else (0, 0, p.2)

/-- The colour-cache creation guard of DecodeImageStream (vp8l.c:862): a
cache is allocated only when `color_cache_bits > 0`. -/
def colorCacheNegotiated (colorCacheBits : Nat) : Bool := 0 < colorCacheBits

/-- Modelled from vp8li.h (outside src/), values fixed by the format and
§4.6: the 2-bit transform type tag. -/
inductive TransformType where
  | predictor
  | crossColor
  | subtractGreen
  | colorIndexing
  deriving DecidableEq

def transformTypeOfBits : Nat → TransformType
  | 0 => .predictor
  | 1 => .crossColor
  | 2 => .subtractGreen
  | _ => .colorIndexing

/-- VP8LTransform (vp8li.h): type tag, sub-sampling bits, dimensions and the
optional auxiliary data decoded by a recursive image stream. -/
structure Transform where
  ttype : TransformType
  bits : Nat
  xsize : Nat
  ysize : Nat
  tdata : Option (List Nat)
  deriving DecidableEq

/-- The four bytes of a 32-bit pixel, least significant first. -/
def pixelBytes (p : Nat) : List Nat :=
  [p &&& 255, (p >>> 8) &&& 255, (p >>> 16) &&& 255, (p >>> 24) &&& 255]

def bytesToPixel (b0 b1 b2 b3 : Nat) : Nat :=
  b0 + (b1 <<< 8) + (b2 <<< 16) + (b3 <<< 24)

def bytesToPixels : List Nat → List Nat
  | b0 :: b1 :: b2 :: b3 :: rest => bytesToPixel b0 b1 b2 b3 :: bytesToPixels rest
  | _ => []

/-- ExpandColorMap (vp8l.c:689-710): the palette is difference-coded
byte-wise (`new[i] = (data[i] + new[i-4]) & 0xff` for `4 ≤ i <
4*num_colors`), then padded with zero bytes to `1 << (8 >> bits)` entries. -/
def expandColorMap (numColors bits : Nat) (cmap : List Nat) : List Nat :=
  let finalNumColors := 1 <<< (8 >>> bits)
  let srcBytes := (cmap.map pixelBytes).flatten
  let outBytes :=
    (List.range (4 * finalNumColors)).foldl
      (fun acc i =>
        if i < 4 then acc ++ [srcBytes.getD i 0]
        else if i < 4 * numColors then
          acc ++ [(srcBytes.getD i 0 + acc.getD (i - 4) 0) % 256]
        else acc ++ [0])
      []
  bytesToPixels outBytes

/-- ReadTransform (vp8l.c:712-759).  `oracle` stands for the recursive
DecodeImageStream call used to decode a transform's auxiliary image; the
transform-type value is read before the `next_transform_ == NUM_TRANSFORMS`
check (NUM_TRANSFORMS = 4, vp8li.h), and the transform is pushed before its
payload is decoded, exactly as in the source.  No check against transforms
already read is performed.  Returns (ok, new xsize, transform stack,
reader). -/
def readTransform (oracle : Nat → Nat → BitReader → Option (List Nat) × BitReader)
    (xsize ysize : Nat) (ts : List Transform) (br : BitReader) :
    Bool × Nat × List Transform × BitReader :=
  let p := readBits br 2
  let ttype := transformTypeOfBits p.1
  if ts.length = 4 then (false, xsize, ts, p.2)
  else
    match ttype with
    | .predictor =>
      let q := readBits p.2 4
      let d := oracle (subSampleSize xsize q.1) (subSampleSize ysize q.1) q.2
      (d.1.isSome, xsize,
        ts ++ [⟨ttype, q.1, xsize, ysize, d.1⟩], d.2)
    | .crossColor =>
      let q := readBits p.2 4
      let d := oracle (subSampleSize xsize q.1) (subSampleSize ysize q.1) q.2
      (d.1.isSome, xsize,
        ts ++ [⟨ttype, q.1, xsize, ysize, d.1⟩], d.2)
    | .subtractGreen => (true, xsize, ts ++ [⟨ttype, 0, xsize, ysize, none⟩], p.2)
    | .colorIndexing =>
      let q := readBits p.2 8
      let numColors := q.1 + 1
      let bits := if 16 < numColors then 0
                  else if 4 < numColors then 1
                  else if 2 < numColors then 2
                  else 3
      let d := oracle numColors 1 q.2
      (d.1.isSome, subSampleSize xsize bits,
        ts ++ [⟨ttype, bits, xsize, ysize, d.1.map (expandColorMap numColors bits)⟩], d.2)

/-- The transform-reading loop of DecodeImageStream step 1 (vp8l.c:847-851):
`while (ok && VP8LReadBits(br, 1)) ok = ReadTransform(...)`.  Each
continuing iteration pushes one transform and at most 5 iterations can start
(the fifth fails on the NUM_TRANSFORMS check), so 6 units of fuel make the
fuel-exhausted branch unreachable. -/
def readTransformsLoop (oracle : Nat → Nat → BitReader → Option (List Nat) × BitReader) :
    Nat → Nat → Nat → List Transform → BitReader →
    Bool × Nat × List Transform × BitReader
  | 0, xsize, _, ts, br => (true, xsize, ts, br)
  | fuel + 1, xsize, ysize, ts, br =>
    let p := readBits br 1
    if p.1 = 1 then
      let r := readTransform oracle xsize ysize ts p.2
      if r.1 then readTransformsLoop oracle fuel r.2.1 ysize r.2.2.1 r.2.2.2
      else (false, r.2.1, r.2.2.1, r.2.2.2)
    else (true, xsize, ts, p.2)

def readTransforms (oracle : Nat → Nat → BitReader → Option (List Nat) × BitReader)
    (xsize ysize : Nat) (br : BitReader) : Bool × Nat × List Transform × BitReader :=
  readTransformsLoop oracle 6 xsize ysize [] br

/-- HTreeGroup (vp8li.h): the five prefix trees of a meta code, in the slot
order GREEN, RED, BLUE, ALPHA, DIST (vp8l.c:42-48). -/
structure HTreeGroup where
  green : HTree
  red : HTree
  blue : HTree
  alpha : HTree
  dist : HTree
  deriving DecidableEq

instance : Inhabited HTreeGroup :=
  ⟨⟨.leaf 0, .leaf 0, .leaf 0, .leaf 0, .leaf 0⟩⟩

/-- The fields of VP8LMetadata (vp8li.h) read by DecodeImageData. -/
structure Hdr where
  huffmanImage : List Nat
  huffmanXsize : Nat
  huffmanSubsampleBits : Nat
  huffmanMask : Nat
  numHtreeGroups : Nat
  htreeGroups : List HTreeGroup
  colorCacheSize : Nat
  deriving DecidableEq

/-- Colour-cache trace events: `ins i` when the pixel at source index `i` is
inserted, `look i` when the pixel at source index `i` is produced by a cache
lookup. -/
inductive CacheEv where
  | ins (idx : Nat)
  | look (idx : Nat)
  deriving DecidableEq

/-- The local loop state of DecodeImageData (vp8l.c:552-569): reader, the
argb buffer, the cursor `src`, the position (col, row), `last_cached`, the
colour cache and the current htree group. -/
structure LoopSt where
  br : BitReader
  buf : List Nat
  src : Nat
  col : Nat
  row : Nat
  lastCached : Nat
  cache : Option ColorCache
  group : HTreeGroup
  deriving DecidableEq

/-- Outcome of DecodeImageData: `ok` and `status` as returned and latched by
the source (vp8l.c:654-663), `readData` true when `src == src_end` set
`dec->state_ = READ_DATA`, the final reader and buffer, and traces of the
cache events, executed back-references `(src index, distance, length)` and
the meta indices fetched from the huffman image. -/
structure DecodeResult where
  ok : Bool
  status : Status
  readData : Bool
  br : BitReader
  buf : List Nat
  srcEnd : Nat
  cacheEvents : List CacheEv
  backrefs : List (Nat × Int × Nat)
  metas : List Nat
  deriving DecidableEq

/-- The `while (last_cached < src) VP8LColorCacheInsert(cc, *last_cached++)`
loop (vp8l.c:598-600, 631-633, 639-641), run for `srcIdx - lc` steps. -/
def drainCacheAux (buf : List Nat) : Nat → ColorCache → Nat → ColorCache × Nat × List CacheEv
  | 0, cc, lc => (cc, lc, [])
  | n + 1, cc, lc =>
    let r := drainCacheAux buf n (cacheInsert cc (buf.getD lc 0)) (lc + 1)
    (r.1, r.2.1, CacheEv.ins lc :: r.2.2)

def drainCache (buf : List Nat) (cc : ColorCache) (lc srcIdx : Nat) :
    ColorCache × Nat × List CacheEv :=
  drainCacheAux buf (srcIdx - lc) cc lc

/-- The column wrap loop after a back-reference (vp8l.c:621-627):
`while (col >= width) { col -= width; ++row; }` in closed form (width > 0
whenever the loop is reached; the ProcessRows hook only drives output
emission and is elided). -/
def advanceCols (col row width : Nat) : Nat × Nat :=
  if width = 0 then (col, row) else (col % width, row + col / width)

/-- The back-reference copy (vp8l.c:616-618): a forward pixel-by-pixel copy
`src[i] = src[i - dist]`.  The source guarantees only `src - dist ≥ data`,
so for `dist ≤ 0` the read index can exceed the written region or the
buffer; such reads hit uninitialised malloc memory in C and are modelled as
the default 0. -/
def copyBackref (buf : List Nat) (srcIdx : Nat) (dist : Int) (len : Nat) : List Nat :=
  (List.range len).foldl
    (fun b i => b.set (srcIdx + i) (b.getD (((srcIdx : Int) + i - dist).toNat) 0)) buf

/-- The Error label of DecodeImageData (vp8l.c:654-658): `ok = 0` and
`status = (!br->eos_) ? BITSTREAM_ERROR : SUSPENDED`. -/
def mkError (st : LoopSt) : DecodeResult :=
  { ok := false,
    status := if brEos st.br then Status.suspended else Status.bitstreamError,
    readData := false, br := st.br, buf := st.buf, srcEnd := st.src,
    cacheEvents := [], backrefs := [], metas := [] }

/-- Normal loop exit (vp8l.c:651-663): the final ProcessRows call only
drives output emission; then the Error label distinguishes a pending reader
error from success, and `src == src_end` moves the state to READ_DATA. -/
def finishDecode (total : Nat) (st : LoopSt) : DecodeResult :=
  if st.br.error then mkError st
  else
    { ok := true, status := Status.ok, readData := st.src == total,
      br := st.br, buf := st.buf, srcEnd := st.src,
      cacheEvents := [], backrefs := [], metas := [] }

/-- Prepends the events of the current iteration to the trace of the rest of
the run. -/
def withEvents (ces : List CacheEv) (ms : List Nat) (bs : List (Nat × Int × Nat))
    (r : DecodeResult) : DecodeResult :=
  { r with
    cacheEvents := ces ++ r.cacheEvents,
    metas := ms ++ r.metas,
    backrefs := bs ++ r.backrefs }

/-- The AdvanceByOne block (vp8l.c:588-602): advance one pixel; on column
overflow reset the column, bump the row (the ProcessRows hook only drives
output emission) and, when a cache is present, ingest every pixel in
`[last_cached, src)`.  `k` is the continuation running the loop bottom
(error check, then next iteration). -/
def advanceByOne (width : Nat) (k : LoopSt → DecodeResult) (st : LoopSt) : DecodeResult :=
  let src' := st.src + 1
  let col' := st.col + 1
  if width ≤ col' then
    match st.cache with
    | some cc =>
      let d := drainCache st.buf cc st.lastCached src'
      withEvents d.2.2 [] []
        (k { st with
             src := src', col := 0, row := st.row + 1,
             cache := some d.1, lastCached := d.2.1 })
    | none => k { st with src := src', col := 0, row := st.row + 1 }
  else k { st with src := src', col := col' }

/-- The conditional tile refresh at the top of a loop iteration
(vp8l.c:575-577): when `(col & mask) == 0` the htree group is re-fetched via
GetHtreeGroupForPos (vp8l.c:497-502, `htree_groups_ + meta_index` — an
out-of-bounds access in C when the index is not below `num_htree_groups`,
modelled by `getD` with a default group). -/
def stepGroup (hdr : Hdr) (st : LoopSt) : HTreeGroup :=
  if st.col &&& hdr.huffmanMask == 0 then
    hdr.htreeGroups.getD
      (getMetaIndex hdr.huffmanImage hdr.huffmanXsize hdr.huffmanSubsampleBits
        st.col st.row) default
  else st.group

/-- The meta-index trace of one iteration: the index fetched from the
huffman image when the tile is refreshed. -/
def stepMetas (hdr : Hdr) (st : LoopSt) : List Nat :=
  if st.col &&& hdr.huffmanMask == 0 then
    [getMetaIndex hdr.huffmanImage hdr.huffmanXsize hdr.huffmanSubsampleBits
      st.col st.row]
  else []

/-- One iteration of the pixel loop of DecodeImageData (vp8l.c:570-650),
already past the loop condition: tile refresh, green-symbol dispatch and the
three pixel-producing branches.  `cont` is the loop bottom: the
`ok = !br->error_` check followed by the next iteration. -/
def decodeStep (hdr : Hdr) (width total : Nat) (cont : LoopSt → DecodeResult)
    (st : LoopSt) : DecodeResult :=
      let grp := stepGroup hdr st
      let ms0 := stepMetas hdr st
      let pc := readSymbol grp.green (fillBitWindow st.br)
      let code := pc.1
      if code < 256 then
        let pr := readSymbol grp.red pc.2
        let pb := readSymbol grp.blue (fillBitWindow pr.2)
        let pa := readSymbol grp.alpha pb.2
        let pix := ((pa.1 <<< 24) + (pr.1 <<< 16) + (code <<< 8) + pb.1) % 4294967296
        withEvents [] ms0 []
          (advanceByOne width cont
            { st with
              br := pa.2, buf := st.buf.set st.src pix, group := grp })
      else if code < 280 then
        let pl := getCopyDistance (code - 256) pc.2
        let pd := readSymbol grp.dist pl.2
        let pq := getCopyDistance pd.1 (fillBitWindow pd.2)
        let dist := planeCodeToDistance width pq.1
        if ((st.src : Int) - dist < 0) || total < st.src + pl.1 then
          withEvents [] ms0 [] (mkError { st with br := pq.2, group := grp })
        else
          let buf' := copyBackref st.buf st.src dist pl.1
          let src' := st.src + pl.1
          let cr := advanceCols (st.col + pl.1) st.row width
          if src' < total then
            let mIdx2 := getMetaIndex hdr.huffmanImage hdr.huffmanXsize
              hdr.huffmanSubsampleBits cr.1 cr.2
            let grp2 := hdr.htreeGroups.getD mIdx2 default
            match st.cache with
            | some cc =>
              let d := drainCache buf' cc st.lastCached src'
              withEvents d.2.2 (ms0 ++ [mIdx2]) [(st.src, dist, pl.1)]
                (cont { st with
                        br := pq.2, buf := buf', src := src',
                        col := cr.1, row := cr.2,
                        cache := some d.1, lastCached := d.2.1, group := grp2 })
            | none =>
              withEvents [] (ms0 ++ [mIdx2]) [(st.src, dist, pl.1)]
                (cont { st with
                        br := pq.2, buf := buf', src := src',
                        col := cr.1, row := cr.2, group := grp2 })
          else
            withEvents [] ms0 [(st.src, dist, pl.1)]
              (cont { st with
                      br := pq.2, buf := buf', src := src',
                      col := cr.1, row := cr.2, group := grp })
      else if code < 280 + hdr.colorCacheSize then
        match st.cache with
        | none => withEvents [] ms0 [] (mkError { st with br := pc.2, group := grp })
        | some cc =>
          let d := drainCache st.buf cc st.lastCached st.src
          let pix := cacheLookup d.1 (code - 280)
          withEvents (d.2.2 ++ [CacheEv.look st.src]) ms0 []
            (advanceByOne width cont
              { st with
                br := pc.2, buf := st.buf.set st.src pix,
                cache := some d.1, lastCached := d.2.1, group := grp })
      else
        withEvents [] ms0 [] (mkError { st with br := pc.2, group := grp })

/-- The pixel loop of DecodeImageData (vp8l.c:570-650).  Fuel decreases once
per iteration; every continuing iteration advances `src` by at least one
(copy lengths are ≥ 1), so `total - src + 1` units suffice and the
fuel-exhausted branch — which behaves like a normal loop exit — is
unreachable from `decodeImageData`. -/
def decodeLoop (hdr : Hdr) (width total : Nat) (processRow : Bool) :
    Nat → LoopSt → DecodeResult
  | 0, st => finishDecode total st
  | fuel + 1, st =>
    if brEos st.br || total ≤ st.src then finishDecode total st
    else
      decodeStep hdr width total
        (fun st' =>
          if st'.br.error then mkError st'
          else decodeLoop hdr width total processRow fuel st')
        st

/-- DecodeImageData (vp8l.c:552-664).  The buffer is `width * height` fresh
(malloc) pixels, modelled as zeros; `src = col = row = 0`, `last_cached =
data`, and the initial htree group is `hdr->htree_groups_` (element 0).
`processRow` only controls the elided ProcessRows output hook. -/
def decodeImageData (hdr : Hdr) (width height : Nat) (processRow : Bool)
    (cache : Option ColorCache) (br : BitReader) : DecodeResult :=
  decodeLoop hdr width (width * height) processRow (width * height + 1)
    ⟨br, List.replicate (width * height) 0, 0, 0, 0, 0, cache,
      hdr.htreeGroups.getD 0 default⟩
/-- The status selection rule at every termination of the pixel loop:
failed runs carry Suspended exactly when the reader is at end of input and
BitstreamError otherwise, successful runs leave the status untouched
(vp8l.c:654-663). -/
def statusRuleP (r : DecodeResult) : Prop :=
  (r.ok = false → r.status = (if brEos r.br then Status.suspended else Status.bitstreamError)) ∧
  (r.ok = true → r.status = Status.ok)

theorem withEvents_ok (c m b r) : (withEvents c m b r).ok = r.ok := rfl

theorem withEvents_cacheEvents (c m b r) :
    (withEvents c m b r).cacheEvents = c ++ r.cacheEvents := rfl

theorem statusRule_withEvents (c m b r) (h : statusRuleP r) :
    statusRuleP (withEvents c m b r) := h

theorem statusRule_mkError (st : LoopSt) : statusRuleP (mkError st) :=
  ⟨fun _ => rfl, fun h => nomatch h⟩

theorem statusRule_finish (total : Nat) (st : LoopSt) :
    statusRuleP (finishDecode total st) := by
  unfold finishDecode
  split
  · exact statusRule_mkError st
  · exact ⟨(fun h => nomatch h), (fun _ => rfl)⟩

theorem statusRule_advanceByOne (width : Nat) (k : LoopSt → DecodeResult) (st : LoopSt)
    (hk : ∀ st', statusRuleP (k st')) : statusRuleP (advanceByOne width k st) := by
  obtain ⟨br, buf, src, col, row, lc, cache, grp⟩ := st
  unfold advanceByOne
  dsimp only
  split
  · cases cache with
    | some cc => exact statusRule_withEvents _ _ _ _ (hk _)
    | none => exact hk _
  · exact hk _

theorem statusRule_decodeStep (hdr : Hdr) (width total : Nat)
    (cont : LoopSt → DecodeResult) (st : LoopSt)
    (hcont : ∀ st', statusRuleP (cont st')) :
    statusRuleP (decodeStep hdr width total cont st) := by
  obtain ⟨br, buf, src, col, row, lc, cache, grp⟩ := st
  unfold decodeStep
  dsimp only
  split
  · exact statusRule_withEvents _ _ _ _ (statusRule_advanceByOne _ _ _ hcont)
  · split
    · split
      · exact statusRule_withEvents _ _ _ _ (statusRule_mkError _)
      · split
        · cases cache with
          | some cc => exact statusRule_withEvents _ _ _ _ (hcont _)
          | none => exact statusRule_withEvents _ _ _ _ (hcont _)
        · exact statusRule_withEvents _ _ _ _ (hcont _)
    · split
      · cases cache with
        | none => exact statusRule_withEvents _ _ _ _ (statusRule_mkError _)
        | some cc => exact statusRule_withEvents _ _ _ _ (statusRule_advanceByOne _ _ _ hcont)
      · exact statusRule_withEvents _ _ _ _ (statusRule_mkError _)

theorem decodeLoop_statusRule (hdr : Hdr) (width total : Nat) (pr : Bool) :
    ∀ fuel st, statusRuleP (decodeLoop hdr width total pr fuel st) := by
  intro fuel
  induction fuel with
  | zero => intro st; exact statusRule_finish total st
  | succ fuel ih =>
    intro st
    rw [decodeLoop]
    split
    · exact statusRule_finish total st
    · refine statusRule_decodeStep _ _ _ _ _ (fun st' => ?_)
      split
      · exact statusRule_mkError st'
      · exact ih st'
/-- Colour-cache event discipline: starting from a next-to-insert counter
`lc`, inserts must arrive as `lc, lc+1, lc+2, ...` and a lookup at source
index `i` may occur only when exactly the pixels below `i` have been
inserted (`i = lc`). -/
def okCE : Nat → List CacheEv → Bool
  | _, [] => true
  | lc, CacheEv.ins j :: es => j == lc && okCE (lc + 1) es
  | lc, CacheEv.look i :: es => i == lc && okCE lc es

/-- The source indices inserted into the cache, in trace order. -/
def insertsOf : List CacheEv → List Nat
  | [] => []
  | CacheEv.ins j :: es => j :: insertsOf es
  | CacheEv.look _ :: es => insertsOf es

theorem drainCacheAux_events (buf : List Nat) :
    ∀ n cc lc, (drainCacheAux buf n cc lc).2.2 = (List.range' lc n).map CacheEv.ins := by
  intro n
  induction n with
  | zero => intro cc lc; rfl
  | succ n ih =>
    intro cc lc
    simp only [drainCacheAux, ih, List.range'_succ, List.map_cons]

theorem drainCacheAux_lc (buf : List Nat) :
    ∀ n cc lc, (drainCacheAux buf n cc lc).2.1 = lc + n := by
  intro n
  induction n with
  | zero => intro cc lc; rfl
  | succ n ih => intro cc lc; simp only [drainCacheAux, ih]; omega

theorem okCE_insRun (n : Nat) :
    ∀ lc es, okCE lc ((List.range' lc n).map CacheEv.ins ++ es) = okCE (lc + n) es := by
  induction n with
  | zero => intro lc es; rfl
  | succ n ih =>
    intro lc es
    simp only [List.range'_succ, List.map_cons, List.cons_append, okCE, beq_self_eq_true,
      Bool.true_and, List.append_eq]
    rw [ih]
    have h1 : lc + 1 + n = lc + (n + 1) := by omega
    rw [h1]

theorem okCE_drain (buf : List Nat) (cc : ColorCache) (lc srcIdx : Nat) (es : List CacheEv)
    (h : lc ≤ srcIdx) :
    okCE lc ((drainCache buf cc lc srcIdx).2.2 ++ es) = okCE srcIdx es := by
  unfold drainCache
  rw [drainCacheAux_events, okCE_insRun]
  have h1 : lc + (srcIdx - lc) = srcIdx := by omega
  rw [h1]
theorem mkError_cacheEvents (st : LoopSt) : (mkError st).cacheEvents = [] := rfl

theorem finishDecode_cacheEvents (total : Nat) (st : LoopSt) :
    (finishDecode total st).cacheEvents = [] := by
  unfold finishDecode
  split <;> rfl

theorem drainCache_lc (buf : List Nat) (cc : ColorCache) (lc s : Nat) (h : lc ≤ s) :
    (drainCache buf cc lc s).2.1 = s := by
  unfold drainCache
  rw [drainCacheAux_lc]
  omega

theorem okCE_advanceByOne (width : Nat) (k : LoopSt → DecodeResult)
    (hk : ∀ br buf src col row lc cache grp, lc ≤ src →
      okCE lc (k ⟨br, buf, src, col, row, lc, cache, grp⟩).cacheEvents = true) :
    ∀ br buf src col row lc cache grp, lc ≤ src →
      okCE lc (advanceByOne width k ⟨br, buf, src, col, row, lc, cache, grp⟩).cacheEvents
        = true := by
  intro br buf src col row lc cache grp h
  unfold advanceByOne
  dsimp only
  split
  · cases cache with
    | some cc =>
      rw [withEvents_cacheEvents, okCE_drain _ _ _ _ _ (Nat.le_succ_of_le h),
        drainCache_lc _ _ _ _ (Nat.le_succ_of_le h)]
      exact hk _ _ _ _ _ _ _ _ (Nat.le_refl _)
    | none => exact hk _ _ _ _ _ _ _ _ (Nat.le_succ_of_le h)
  · exact hk _ _ _ _ _ _ _ _ (Nat.le_succ_of_le h)

theorem okCE_decodeStep (hdr : Hdr) (width total : Nat)
    (cont : LoopSt → DecodeResult)
    (hcont : ∀ br buf src col row lc cache grp, lc ≤ src →
      okCE lc (cont ⟨br, buf, src, col, row, lc, cache, grp⟩).cacheEvents = true) :
    ∀ br buf src col row lc cache grp, lc ≤ src →
      okCE lc (decodeStep hdr width total cont
        ⟨br, buf, src, col, row, lc, cache, grp⟩).cacheEvents = true := by
  intro br buf src col row lc cache grp h
  unfold decodeStep
  dsimp only
  split
  · rw [withEvents_cacheEvents, List.nil_append]
    exact okCE_advanceByOne _ _ hcont _ _ _ _ _ _ _ _ h
  · split
    · split
      · rw [withEvents_cacheEvents, mkError_cacheEvents]
        rfl
      · split
        · cases cache with
          | some cc =>
            rw [withEvents_cacheEvents,
              okCE_drain _ _ _ _ _ (le_trans h (Nat.le_add_right _ _)),
              drainCache_lc _ _ _ _ (le_trans h (Nat.le_add_right _ _))]
            exact hcont _ _ _ _ _ _ _ _ (Nat.le_refl _)
          | none =>
            rw [withEvents_cacheEvents, List.nil_append]
            exact hcont _ _ _ _ _ _ _ _ (le_trans h (Nat.le_add_right _ _))
        · rw [withEvents_cacheEvents, List.nil_append]
          exact hcont _ _ _ _ _ _ _ _ (le_trans h (Nat.le_add_right _ _))
    · split
      · cases cache with
        | none =>
          rw [withEvents_cacheEvents, mkError_cacheEvents]
          rfl
        | some cc =>
          rw [withEvents_cacheEvents, List.append_assoc,
            okCE_drain _ _ _ _ _ h, drainCache_lc _ _ _ _ h]
          simp only [List.cons_append, List.nil_append, okCE, beq_self_eq_true,
            Bool.true_and]
          exact okCE_advanceByOne _ _ hcont _ _ _ _ _ _ _ _ (Nat.le_refl _)
      · rw [withEvents_cacheEvents, mkError_cacheEvents]
        rfl

theorem decodeLoop_okCE (hdr : Hdr) (width total : Nat) (pr : Bool) :
    ∀ fuel st, st.lastCached ≤ st.src →
      okCE st.lastCached (decodeLoop hdr width total pr fuel st).cacheEvents = true := by
  intro fuel
  induction fuel with
  | zero =>
    intro st h
    rw [decodeLoop, finishDecode_cacheEvents]
    rfl
  | succ fuel ih =>
    intro st h
    obtain ⟨br, buf, src, col, row, lc, cache, grp⟩ := st
    simp only at h
    rw [decodeLoop]
    split
    · rw [finishDecode_cacheEvents]
      rfl
    · refine okCE_decodeStep _ _ _ _
        (fun br' buf' src' col' row' lc' cache' grp' h' => ?_) _ _ _ _ _ _ _ _ h
      split
      · rw [mkError_cacheEvents]
        rfl
      · exact ih ⟨br', buf', src', col', row', lc', cache', grp'⟩ h'
theorem okCE_insertsOf :
    ∀ (evs : List CacheEv) (lc : Nat), okCE lc evs = true →
      insertsOf evs = List.range' lc (insertsOf evs).length := by
  intro evs
  induction evs with
  | nil => intro lc h; rfl
  | cons e es ih =>
    intro lc h
    cases e with
    | ins j =>
      simp only [okCE, Bool.and_eq_true, beq_iff_eq] at h
      obtain ⟨hj, h2⟩ := h
      subst hj
      have h3 := ih _ h2
      simp only [insertsOf, List.length_cons, List.range'_succ]
      conv_lhs => rw [h3]
    | look j =>
      simp only [okCE, Bool.and_eq_true, beq_iff_eq] at h
      exact ih _ h.2

theorem okCE_lookup_take :
    ∀ (evs : List CacheEv) (lc p i : Nat), okCE lc evs = true →
      evs.get? p = some (CacheEv.look i) →
      lc ≤ i ∧ insertsOf (evs.take p) = List.range' lc (i - lc) := by
  intro evs
  induction evs with
  | nil => intro lc p i h hg; cases hg
  | cons e es ih =>
    intro lc p i h hg
    cases p with
    | zero =>
      cases e with
      | ins j => cases hg
      | look j =>
        injection hg with h1
        cases h1
        simp only [okCE, Bool.and_eq_true, beq_iff_eq] at h
        obtain ⟨hj, h2⟩ := h
        subst hj
        refine ⟨Nat.le_refl _, ?_⟩
        simp only [List.take_zero, insertsOf, Nat.sub_self, List.range'_zero]
    | succ p =>
      simp only [List.get?] at hg
      cases e with
      | ins j =>
        simp only [okCE, Bool.and_eq_true, beq_iff_eq] at h
        obtain ⟨hj, h2⟩ := h
        subst hj
        obtain ⟨hle, heq⟩ := ih (j + 1) p i h2 hg
        refine ⟨by omega, ?_⟩
        simp only [List.take_succ_cons, insertsOf, heq]
        have h4 : i - j = (i - (j + 1)) + 1 := by omega
        rw [h4, List.range'_succ]
      | look j =>
        simp only [okCE, Bool.and_eq_true, beq_iff_eq] at h
        obtain ⟨hj, h2⟩ := h
        obtain ⟨hle, heq⟩ := ih lc p i h2 hg
        exact ⟨hle, by simpa [insertsOf] using heq⟩
theorem readBits_one_eq (br : BitReader) (he : br.error = false)
    (hd : br.pos + 1 ≤ brBitLen br) : readBits br 1 = readOneBitUnsafe br := by
  unfold readBits readOneBitUnsafe
  rw [if_neg (by simp [he]), if_pos hd]
  simp [bitsVal]

theorem treeDepth_node_left (l r : HTree) : treeDepth l + 1 ≤ treeDepth (.node l r) := by
  simp only [treeDepth]
  omega

theorem treeDepth_node_right (l r : HTree) : treeDepth r + 1 ≤ treeDepth (.node l r) := by
  have := Nat.le_max_right (treeDepth l) (treeDepth r)
  simp only [treeDepth]
  omega

theorem walkUnsafe_eq_safe (t : HTree) :
    ∀ br : BitReader, br.error = false → treeDepth t + br.pos ≤ brBitLen br →
      readSymbolUnsafe t br = treeWalkSafe t br := by
  induction t with
  | leaf s => intro br he hd; rfl
  | node l r ihl ihr =>
    intro br he hd
    have h1 : br.pos + 1 ≤ brBitLen br := by
      have := treeDepth_node_left l r
      omega
    rw [readSymbolUnsafe, treeWalkSafe, readBits_one_eq br he h1]
    have he2 : ({ br with pos := br.pos + 1 } : BitReader).error = false := he
    split
    · refine ihl _ he2 ?_
      have h2 := treeDepth_node_left l r
      simp only [readOneBitUnsafe, brBitLen] at hd h2 ⊢
      omega
    · refine ihr _ he2 ?_
      have h2 := treeDepth_node_right l r
      simp only [readOneBitUnsafe, brBitLen] at hd h2 ⊢
      omega
theorem treeWalkSafe_lt (n : Nat) :
    ∀ (t : HTree) (br : BitReader), leavesLT t n = true → (treeWalkSafe t br).1 < n := by
  intro t
  induction t with
  | leaf s => intro br h; simpa [leavesLT, treeWalkSafe] using h
  | node l r ihl ihr =>
    intro br h
    simp only [leavesLT, Bool.and_eq_true] at h
    rw [treeWalkSafe]
    split
    · exact ihl _ h.1
    · exact ihr _ h.2

theorem readSymbolUnsafe_lt (n : Nat) :
    ∀ (t : HTree) (br : BitReader), leavesLT t n = true → (readSymbolUnsafe t br).1 < n := by
  intro t
  induction t with
  | leaf s => intro br h; simpa [leavesLT, readSymbolUnsafe] using h
  | node l r ihl ihr =>
    intro br h
    simp only [leavesLT, Bool.and_eq_true] at h
    rw [readSymbolUnsafe]
    split
    · exact ihl _ h.1
    · exact ihr _ h.2

theorem readSymbol_lt (n : Nat) (t : HTree) (br : BitReader) (h : leavesLT t n = true) :
    (readSymbol t br).1 < n := by
  unfold readSymbol
  split
  · exact readSymbolUnsafe_lt n t br h
  · exact treeWalkSafe_lt n t br h

theorem clLoop_src_eq_spec (tree : HTree) (numSymbols : Nat)
    (hlt : leavesLT tree 19 = true) :
    ∀ fuel br symbol maxSym prev lens,
      clLoopSrc tree numSymbols fuel br symbol maxSym prev lens
        = clLoopSpec tree numSymbols fuel br symbol maxSym prev lens := by
  intro fuel
  induction fuel with
  | zero => intro br symbol maxSym prev lens; rfl
  | succ fuel ih =>
    intro br symbol maxSym prev lens
    rw [clLoopSrc, clLoopSpec]
    split
    · rfl
    · split
      · rfl
      · dsimp only
        split
        · exact ih _ _ _ _ _
        · rename_i hge
          have h19 : (readSymbol tree (fillBitWindow br)).1 < 19 :=
            readSymbol_lt 19 tree (fillBitWindow br) hlt
          have hp : (readSymbol tree (fillBitWindow br)).1 = 16
              ∨ (readSymbol tree (fillBitWindow br)).1 = 17
              ∨ (readSymbol tree (fillBitWindow br)).1 = 18 := by omega
          rcases hp with hp | hp | hp <;>
            rw [hp] <;>
            norm_num [kCodeLengthExtraBits, kCodeLengthRepeatOffsets] <;>
            generalize readBits (readSymbol tree (fillBitWindow br)).2 _ = qq
          · rw [Nat.add_comm 3 qq.1]
            split
            · rfl
            · exact ih _ _ _ _ _
          · rw [Nat.add_comm 3 qq.1]
            split
            · rfl
            · exact ih _ _ _ _ _
          · rw [Nat.add_comm 11 qq.1]
            split
            · rfl
            · exact ih _ _ _ _ _

/-- Concrete group of trivial literal trees (used by the C1 evaluation). -/
def grpLitConst : HTreeGroup := ⟨.leaf 1, .leaf 2, .leaf 3, .leaf 4, .leaf 0⟩

/-- Metadata with a huffman image whose only entry (7) is not below
`num_htree_groups = 2`. -/
def hdrOutOfRangeMeta : Hdr := ⟨[7], 1, 1, huffmanMaskOf 1, 2, [grpLitConst, grpLitConst], 0⟩

/-- Claim C1 (code bug): the decoder never compares the group indices read
from the huffman image against `num_htree_groups`.  A meta pixel with
red+green bytes 0x0742 yields index 7; with `num_htree_groups = 2` the LZ77
loop fetches htree group 7 (`htree_groups_ + 7`, out of bounds in C) at every
tile refresh and the decode completes without BitstreamError instead of
being rejected. -/
theorem c1_meta_index_unchecked :
    fixHuffmanImage [0x00000742] = [7]
    ∧ getMetaIndex [7] 1 1 0 0 = 7
    ∧ ¬ (7 < hdrOutOfRangeMeta.numHtreeGroups)
    ∧ (decodeImageData hdrOutOfRangeMeta 2 2 false none ⟨[0], 0, false⟩).ok = true
    ∧ (decodeImageData hdrOutOfRangeMeta 2 2 false none ⟨[0], 0, false⟩).status = Status.ok
    ∧ (decodeImageData hdrOutOfRangeMeta 2 2 false none ⟨[0], 0, false⟩).metas = [7, 7] := by
  decide

/-- Recursion stub for ReadTransform payloads: never consulted by the inputs
below (SUBTRACT_GREEN has no payload). -/
def nullOracle : Nat → Nat → BitReader → Option (List Nat) × BitReader :=
  fun _ _ br => (none, br)

/-- Claim C2 (code bug): ReadTransform performs no duplicate-type check.  The
header bits 1,(10),1,(10),0 (byte 0x2D) declare SUBTRACT_GREEN twice and the
transform loop accepts both, ending with two stacked transforms of the same
type and no error; only the depth limit works — a fifth transform
(bytes 0x6D 0x5B) is rejected with the stack still holding 4 entries. -/
theorem c2_duplicate_transform_accepted :
    ((readTransforms nullOracle 10 10 ⟨[0x2D], 0, false⟩).1 = true
      ∧ (readTransforms nullOracle 10 10 ⟨[0x2D], 0, false⟩).2.2.1.map Transform.ttype
          = [TransformType.subtractGreen, TransformType.subtractGreen]
      ∧ (readTransforms nullOracle 10 10 ⟨[0x2D], 0, false⟩).2.2.2.error = false)
    ∧ ((readTransforms nullOracle 10 10 ⟨[0x6D, 0x5B], 0, false⟩).1 = false
      ∧ (readTransforms nullOracle 10 10 ⟨[0x6D, 0x5B], 0, false⟩).2.2.1.length = 4) := by
  decide

/-- Group decoding a single back-reference: GREEN is the trivial code for
symbol 256 (length symbol 0) and DIST the trivial code for distance symbol
12 (so the 5 extra bits 0x0F give distance code 80). -/
def grpNegDist : HTreeGroup := ⟨.leaf 256, .leaf 0, .leaf 0, .leaf 0, .leaf 12⟩

def hdrNegDist : Hdr := ⟨[], 0, 0, huffmanMaskOf 0, 1, [grpNegDist], 0⟩

/-- Claim C3 (code bug): on a width-1 image, plane code 80 (lut byte 0x1f)
maps to distance 1*1 + 8 − 15 = −6; the only guard
(`src - dist < data || src + length > src_end`) passes for a non-positive
distance, the back-reference at pixel 0 executes and its copy reads index
0 − (−6) = 6, an index not smaller than the pixel's own (and beyond the
1-pixel buffer — an out-of-bounds read in C), refuting `d > 0`.  Later
upstream libwebp clamps the distance to at least 1. -/
theorem c3_nonpositive_distance_executes :
    planeCodeToDistance 1 80 = -6
    ∧ (decodeImageData hdrNegDist 1 1 false none ⟨[0x0F], 0, false⟩).ok = true
    ∧ (decodeImageData hdrNegDist 1 1 false none ⟨[0x0F], 0, false⟩).readData = true
    ∧ (decodeImageData hdrNegDist 1 1 false none ⟨[0x0F], 0, false⟩).backrefs
        = [(0, -6, 1)]
    ∧ ¬ (0 < (-6 : Int)) := by
  decide

/-- Claim C4 (code bug): the 4-bit colour-cache field is stored with no
[1, 11] range check.  With the use-colour-cache bit set and field 0, the
header is accepted (error-free), `color_cache_size` is set to `1 << 0 = 1`
(inflating the GREEN alphabet) yet no cache is negotiated
(`color_cache_bits > 0` fails); field 15 is likewise accepted and would
create a 2^15-entry cache, though the claim says values outside [1, 11] are
rejected. -/
theorem c4_cache_bits_unvalidated :
    ((readColorCacheInfo ⟨[0x01], 0, false⟩).1 = 0
      ∧ (readColorCacheInfo ⟨[0x01], 0, false⟩).2.1 = 1
      ∧ (readColorCacheInfo ⟨[0x01], 0, false⟩).2.2.error = false
      ∧ colorCacheNegotiated (readColorCacheInfo ⟨[0x01], 0, false⟩).1 = false)
    ∧ ((readColorCacheInfo ⟨[0x1F], 0, false⟩).1 = 15
      ∧ ¬ ((readColorCacheInfo ⟨[0x1F], 0, false⟩).1 ≤ 11)
      ∧ (readColorCacheInfo ⟨[0x1F], 0, false⟩).2.1 = 32768
      ∧ (readColorCacheInfo ⟨[0x1F], 0, false⟩).2.2.error = false) := by
  decide

/-- Claim C5 (amended): in every run of DecodeImageData the inserted source
indices form the exact initial segment 0, 1, 2, ... (each inserted pixel
inserted exactly once, in strictly increasing order) and at every
cache-lookup of the pixel at source index `i` exactly the pixels with
indices below `i` have been inserted beforehand.  (Pixels past the last
cache interaction — e.g. those of a final back-reference — may never be
inserted, see the counterexample.) -/
theorem c5_cache_discipline (hdr : Hdr) (width height : Nat) (processRow : Bool)
    (cache : Option ColorCache) (br : BitReader) :
    insertsOf (decodeImageData hdr width height processRow cache br).cacheEvents
        = List.range
            (insertsOf (decodeImageData hdr width height processRow cache br).cacheEvents).length
    ∧ (∀ p i,
        (decodeImageData hdr width height processRow cache br).cacheEvents.get? p
            = some (CacheEv.look i) →
        insertsOf ((decodeImageData hdr width height processRow cache br).cacheEvents.take p)
          = List.range i) := by
  have h := decodeLoop_okCE hdr width (width * height) processRow (width * height + 1)
    ⟨br, List.replicate (width * height) 0, 0, 0, 0, 0, cache,
      hdr.htreeGroups.getD 0 default⟩ (Nat.le_refl 0)
  constructor
  · rw [List.range_eq_range']
    exact okCE_insertsOf _ 0 h
  · intro p i hg
    rw [List.range_eq_range']
    unfold decodeImageData at hg ⊢
    obtain ⟨hle, heq⟩ := okCE_lookup_take _ 0 p i h hg
    rw [Nat.sub_zero] at heq
    exact heq

/-- Group with a 1-bit GREEN code choosing between literal 5 and the
colour-cache symbol 280 (key 0). -/
def grpLookup : HTreeGroup := ⟨.node (.leaf 5) (.leaf 280), .leaf 0, .leaf 0, .leaf 0, .leaf 0⟩

def hdrLookup : Hdr := ⟨[], 0, 0, huffmanMaskOf 0, 1, [grpLookup], 2⟩

theorem c5_cache_discipline_witness :
    insertsOf ((decodeImageData hdrLookup 2 1 false (some ⟨1, [0, 0]⟩)
        ⟨[0x02], 0, false⟩).cacheEvents.take 1) = List.range 1 :=
  (c5_cache_discipline hdrLookup 2 1 false (some ⟨1, [0, 0]⟩) ⟨[0x02], 0, false⟩).2 1 1
    (by decide)

/-- Group with a 1-bit GREEN code choosing between literal 0 and the
back-reference symbol 256; DIST is the trivial code for distance symbol 1
(distance code 2, lut byte 0x07, distance 1 at width 2). -/
def grpTailRef : HTreeGroup := ⟨.node (.leaf 0) (.leaf 256), .leaf 0, .leaf 0, .leaf 0, .leaf 1⟩

def hdrTailRef : Hdr := ⟨[], 0, 0, huffmanMaskOf 0, 1, [grpTailRef], 2⟩

/-- Claim C5 counterexample: with the colour cache enabled, a 2-pixel image
decoded as one literal followed by a final length-1 back-reference completes
successfully with an empty cache trace — no pixel is ever inserted into the
cache, refuting "every pixel ... is inserted into the colour cache exactly
once" (the literal's mid-row advance does not insert, and the
`if (src < src_end)` guard skips the insertion after the final
back-reference). -/
theorem c5_counterexample :
    (decodeImageData hdrTailRef 2 1 false (some ⟨1, [0, 0]⟩) ⟨[0x02], 0, false⟩).ok = true
    ∧ (decodeImageData hdrTailRef 2 1 false (some ⟨1, [0, 0]⟩) ⟨[0x02], 0, false⟩).readData
        = true
    ∧ (decodeImageData hdrTailRef 2 1 false (some ⟨1, [0, 0]⟩) ⟨[0x02], 0, false⟩).cacheEvents
        = [] := by
  decide

/-- Claim C6 (amended): whenever DecodeImageData terminates unsuccessfully,
the status is Suspended when the bit reader has reached end of input and
BitstreamError otherwise; a successful termination leaves the status OK.
(Dropping the final byte of a valid stream therefore never yields
BitstreamError-at-eos, but it need not fail at all — see the
counterexample.) -/
theorem c6_failure_status (hdr : Hdr) (width height : Nat) (processRow : Bool)
    (cache : Option ColorCache) (br : BitReader) :
    ((decodeImageData hdr width height processRow cache br).ok = false →
      (decodeImageData hdr width height processRow cache br).status
        = (if brEos (decodeImageData hdr width height processRow cache br).br
           then Status.suspended else Status.bitstreamError))
    ∧ ((decodeImageData hdr width height processRow cache br).ok = true →
      (decodeImageData hdr width height processRow cache br).status = Status.ok) :=
  decodeLoop_statusRule hdr width (width * height) processRow _ _

/-- Group whose GREEN tree holds the out-of-range symbol 300 (≥ 280 with no
cache), driving the decode into the bad-symbol branch. -/
def grpBadSym : HTreeGroup := ⟨.leaf 300, .leaf 0, .leaf 0, .leaf 0, .leaf 0⟩

def hdrBadSym : Hdr := ⟨[], 0, 0, huffmanMaskOf 0, 1, [grpBadSym], 0⟩

theorem c6_failure_status_witness :
    (decodeImageData hdrBadSym 2 1 false none ⟨[0], 0, false⟩).status
      = Status.bitstreamError :=
  ((c6_failure_status hdrBadSym 2 1 false none ⟨[0], 0, false⟩).1 (by decide)).trans
    (by decide)

/-- Group of 1-bit literal GREEN codes: every pixel costs exactly one bit. -/
def grpLit1 : HTreeGroup := ⟨.node (.leaf 0) (.leaf 1), .leaf 0, .leaf 0, .leaf 0, .leaf 0⟩

def hdrLit1 : Hdr := ⟨[], 0, 0, huffmanMaskOf 0, 1, [grpLit1], 0⟩

/-- Claim C6 counterexample: a valid 16-pixel stream of 1-bit literals, with
its final byte dropped, does not fail with Suspended: the loop stops at the
end-of-input check after 8 pixels and DecodeImageData returns success with
status OK. -/
theorem c6_truncation_counterexample :
    ((decodeImageData hdrLit1 16 1 false none ⟨[0, 0], 0, false⟩).ok = true
      ∧ (decodeImageData hdrLit1 16 1 false none ⟨[0, 0], 0, false⟩).readData = true)
    ∧ ((decodeImageData hdrLit1 16 1 false none ⟨[0], 0, false⟩).ok = true
      ∧ (decodeImageData hdrLit1 16 1 false none ⟨[0], 0, false⟩).status = Status.ok
      ∧ (decodeImageData hdrLit1 16 1 false none ⟨[0], 0, false⟩).srcEnd = 8
      ∧ (decodeImageData hdrLit1 16 1 false none ⟨[0], 0, false⟩).status
          ≠ Status.suspended) := by
  decide

/-- Claim C7: over the 120 small plane codes the lut entries give pairwise
distinct (dy, dx) displacement pairs with dy = byte >> 4 ∈ [0, 7] and
dx = 8 − (byte & 0xf), |dx| ≤ 8; for codes 1..120 the returned distance is
dy * width + dx and for every code above 120 it is code − 120. -/
theorem c7_plane_code_bijection :
    (((List.range 120).map (fun i =>
        ((codeToPlaneLut.getD i 0) >>> 4,
         (8 : Int) - (((codeToPlaneLut.getD i 0) &&& 15 : Nat) : Int)))).Nodup)
    ∧ (∀ d ∈ codeToPlaneLut,
        d >>> 4 ≤ 7 ∧ -8 ≤ (8 : Int) - ((d &&& 15 : Nat) : Int)
          ∧ (8 : Int) - ((d &&& 15 : Nat) : Int) ≤ 8)
    ∧ (∀ w c, 1 ≤ c → c ≤ 120 →
        planeCodeToDistance w c
          = (((codeToPlaneLut.getD (c - 1) 0) >>> 4 : Nat) : Int) * (w : Nat)
            + ((8 : Int) - (((codeToPlaneLut.getD (c - 1) 0) &&& 15 : Nat) : Int)))
    ∧ (∀ w c, 120 < c → planeCodeToDistance w c = (c : Int) - 120) := by
  refine ⟨by decide, by decide, ?_, ?_⟩
  · intro w c h1 h2
    unfold planeCodeToDistance
    rw [if_neg (by omega)]
  · intro w c h
    unfold planeCodeToDistance
    rw [if_pos h]

theorem c7_plane_code_bijection_witness :
    planeCodeToDistance 7 80
        = (((codeToPlaneLut.getD (80 - 1) 0) >>> 4 : Nat) : Int) * ((7 : Nat) : Int)
          + ((8 : Int) - (((codeToPlaneLut.getD (80 - 1) 0) &&& 15 : Nat) : Int))
      ∧ planeCodeToDistance 3 200 = (200 : Int) - 120 :=
  ⟨c7_plane_code_bijection.2.2.1 7 80 (by decide) (by decide),
   c7_plane_code_bijection.2.2.2 3 200 (by decide)⟩

/-- Claim C8: the code-length mini-protocol of ReadHuffmanCodeLengths —
symbols 0..15 literal lengths, 16 repeating the previous non-zero length
(initially 8) `3 + read(2)` times, 17 and 18 repeating zeros `3 + read(3)`
and `11 + read(7)` times, and `symbol + repeat > alphabet_size` failing with
BitstreamError — computes, for every code-length tree over the 19-symbol
alphabet, exactly the spec-side rendering of the protocol table. -/
theorem c8_code_length_protocol (tree : HTree) (numSymbols : Nat) (br : BitReader)
    (hlt : leavesLT tree 19 = true) :
    readHuffmanCodeLengthsT tree numSymbols br
      = readCodeLengthsSpecT tree numSymbols br := by
  unfold readHuffmanCodeLengthsT readCodeLengthsSpecT
  dsimp only
  split
  · split
    · rfl
    · exact clLoop_src_eq_spec tree numSymbols hlt _ _ _ _ _ _
  · exact clLoop_src_eq_spec tree numSymbols hlt _ _ _ _ _ _

theorem c8_code_length_protocol_witness :
    readHuffmanCodeLengthsT (.node (.leaf 0) (.leaf 16)) 19 ⟨[0xA6], 0, false⟩
      = readCodeLengthsSpecT (.node (.leaf 0) (.leaf 16)) 19 ⟨[0xA6], 0, false⟩ :=
  c8_code_length_protocol _ 19 _ (by decide)

/-- Claim C9: whenever at least 8 unread bytes remain — the condition under
which ReadSymbol takes the fast path — and the walk cannot overrun them
(tree depth at most 64 bits; real trees are ≤ 15 bits deep), the unsafe and
safe symbol reads return the same symbol and the same reader state, and
ReadSymbol indeed dispatches to the unsafe walk. -/
theorem c9_fast_slow_equivalent (t : HTree) (br : BitReader)
    (hbytes : br.pos + 64 ≤ brBitLen br) (hdepth : treeDepth t ≤ 64)
    (herr : br.error = false) :
    readSymbolUnsafe t br = treeWalkSafe t br
      ∧ readSymbol t br = readSymbolUnsafe t br := by
  have h1 : treeDepth t + br.pos ≤ brBitLen br := by omega
  refine ⟨walkUnsafe_eq_safe t br herr h1, ?_⟩
  unfold readSymbol
  rw [if_pos hbytes]

theorem c9_fast_slow_equivalent_witness :
    readSymbolUnsafe (.node (.leaf 3) (.leaf 7)) ⟨[1, 0, 0, 0, 0, 0, 0, 0], 0, false⟩
        = treeWalkSafe (.node (.leaf 3) (.leaf 7)) ⟨[1, 0, 0, 0, 0, 0, 0, 0], 0, false⟩
      ∧ readSymbol (.node (.leaf 3) (.leaf 7)) ⟨[1, 0, 0, 0, 0, 0, 0, 0], 0, false⟩
        = readSymbolUnsafe (.node (.leaf 3) (.leaf 7)) ⟨[1, 0, 0, 0, 0, 0, 0, 0], 0, false⟩ :=
  c9_fast_slow_equivalent _ _ (by decide) (by decide) rfl

/-- Claim C10: when the optional length-header bit is set and the decoded
`max_symbol = 2 + read(2 + 2*read(3))` exceeds the alphabet size, the
function fails with BITSTREAM_ERROR before decoding any symbol length: no
code length is produced and the reader has consumed exactly the header
fields. -/
theorem c10_max_symbol_overflow (clcl : List Nat) (tree : HTree) (numSymbols : Nat)
    (br br1 br2 br3 : BitReader) (nb v : Nat)
    (hbuild : huffmanTreeBuildImplicit clcl = some tree)
    (h1 : readBits br 1 = (1, br1))
    (h2 : readBits br1 3 = (nb, br2))
    (h3 : readBits br2 (2 + 2 * nb) = (v, br3))
    (hov : numSymbols < 2 + v) :
    readHuffmanCodeLengths clcl numSymbols br = (none, Status.bitstreamError, br3) := by
  unfold readHuffmanCodeLengths
  rw [hbuild]
  unfold readHuffmanCodeLengthsT
  rw [h1]
  dsimp only
  rw [if_pos rfl, h2]
  dsimp only
  rw [h3]
  dsimp only
  rw [if_pos hov]

theorem c10_max_symbol_overflow_witness :
    readHuffmanCodeLengths
        [1, 1, 0, 0, 0, 0, 0, 0, 0, 0, 0, 0, 0, 0, 0, 0, 0, 0, 0] 19
        ⟨[0xF5, 0x03], 0, false⟩
      = (none, Status.bitstreamError, ⟨[0xF5, 0x03], 10, false⟩) :=
  c10_max_symbol_overflow _ (.node (.leaf 0) (.leaf 1)) 19
    ⟨[0xF5, 0x03], 0, false⟩ ⟨[0xF5, 0x03], 1, false⟩ ⟨[0xF5, 0x03], 4, false⟩
    ⟨[0xF5, 0x03], 10, false⟩ 2 63
    (by decide) (by decide) (by decide) (by decide) (by decide)
